import Mathlib

/-!
Verification of the cmtr context-budgeting engine (`src/cmtr/core.py` and
`src/cmtr/git.py`) against its natural-language specification.

The Python code is shallowly embedded: Python `str` values are modelled as
`List Char` (Unicode code points), `bytes` as `List Nat` (each < 256), and
every function of the engine is translated into an executable Lean
definition.  External collaborators (the version-control subprocess
interface) are modelled as a `GitSnapshot` record holding a fixed snapshot
of their responses, as the specification prescribes.
-/

namespace Cmtr

/-- Python `str`, modelled as the list of its code points. -/
abbrev Str := List Char

/-- Helper to write concrete `Str` values from Lean string literals. -/
def str (s : String) : Str := s.data

/-! ### Python string primitives (the pieces of the `str` runtime the code uses) -/

/-- The line-boundary code points recognised by Python `str.splitlines`. -/
def isLB (c : Char) : Bool :=
  c.toNat = 0x0A || c.toNat = 0x0B || c.toNat = 0x0C || c.toNat = 0x0D ||
  c.toNat = 0x1C || c.toNat = 0x1D || c.toNat = 0x1E || c.toNat = 0x85 ||
  c.toNat = 0x2028 || c.toNat = 0x2029

/-- Prepend a character to the first line of a `splitlines` result. -/
def slCons (c : Char) : List Str → List Str
  | [] => [[c]]
  | l :: ls => (c :: l) :: ls

/-- Python `str.splitlines()`: split at every line boundary, treating
`"\r\n"` as a single boundary, with no trailing empty line. -/
def pySplitlines : Str → List Str
  | [] => []
  | [c] => if isLB c then [[]] else [[c]]
  | c1 :: c2 :: cs =>
    if isLB c1 then
      if c1 = '\r' ∧ c2 = '\n' then [] :: pySplitlines cs
      else [] :: pySplitlines (c2 :: cs)
    else slCons c1 (pySplitlines (c2 :: cs))

/-- `len(text.splitlines())`, the line count used by the truncation pass. -/
def lineCount (s : Str) : Nat := (pySplitlines s).length

/-- The whitespace code points stripped by Python `str.strip()` /
`str.rstrip()` (the Unicode whitespace table). -/
def isPyWs (c : Char) : Bool :=
  (0x09 ≤ c.toNat && c.toNat ≤ 0x0D) || (0x1C ≤ c.toNat && c.toNat ≤ 0x1F) ||
  c.toNat = 0x20 || c.toNat = 0x85 || c.toNat = 0xA0 || c.toNat = 0x1680 ||
  (0x2000 ≤ c.toNat && c.toNat ≤ 0x200A) ||
  c.toNat = 0x2028 || c.toNat = 0x2029 || c.toNat = 0x202F ||
  c.toNat = 0x205F || c.toNat = 0x3000

/-- Python `str.rstrip()` for a character predicate: drop matching trailing
characters. -/
def pyRstrip (p : Char → Bool) (s : Str) : Str :=
  (s.reverse.dropWhile p).reverse

/-- Python `str.lstrip()` for a character predicate. -/
def pyLstrip (p : Char → Bool) (s : Str) : Str := s.dropWhile p

/-- Python `str.strip()` for a character predicate (both ends). -/
def pyStrip (p : Char → Bool) (s : Str) : Str := pyRstrip p (pyLstrip p s)

/-- Python `str.split(sep)` for a one-character separator (keeps empty
parts, as Python does). -/
def pySplitOn (c : Char) : Str → List Str
  | [] => [[]]
  | x :: xs =>
    if x = c then [] :: pySplitOn c xs
    else slCons x (pySplitOn c xs)

/-- Python `str.split(sep)` for a multi-character separator, fuelled so the
definition stays structurally recursive (the fuel is always sufficient:
one unit per input character). -/
def pySplitSubGo (sep : Str) : Nat → Str → List Str
  | 0, s => [s]
  | _ + 1, [] => [[]]
  | fuel + 1, x :: xs =>
    if sep.isPrefixOf (x :: xs) ∧ sep ≠ [] then
      [] :: pySplitSubGo sep fuel ((x :: xs).drop sep.length)
    else slCons x (pySplitSubGo sep fuel xs)

/-- Python `str.split(sep)` for a multi-character separator. -/
def pySplitSub (sep s : Str) : List Str := pySplitSubGo sep (s.length + 1) s

/-! ### UTF-8 (the parts of `str.encode("utf-8")` / `bytes.decode("utf-8",
errors="ignore")` the truncation pass relies on) -/

/-- The number of UTF-8 bytes used to encode one code point. -/
def utf8Size (c : Char) : Nat :=
  if c.toNat < 0x80 then 1
  else if c.toNat < 0x800 then 2
  else if c.toNat < 0x10000 then 3
  else 4

/-- UTF-8 encoding of a single code point.  Written with arithmetic
(`0xC0 + n / 0x40` etc.) which agrees with the usual shift/mask form on
the relevant ranges. -/
def encodeChar (c : Char) : List Nat :=
  if c.toNat < 0x80 then [c.toNat]
  else if c.toNat < 0x800 then
    [0xC0 + c.toNat / 0x40, 0x80 + c.toNat % 0x40]
  else if c.toNat < 0x10000 then
    [0xE0 + c.toNat / 0x1000, 0x80 + c.toNat / 0x40 % 0x40,
      0x80 + c.toNat % 0x40]
  else
    [0xF0 + c.toNat / 0x40000, 0x80 + c.toNat / 0x1000 % 0x40,
      0x80 + c.toNat / 0x40 % 0x40, 0x80 + c.toNat % 0x40]

/-- `text.encode("utf-8")` as a byte list. -/
def encode : Str → List Nat
  | [] => []
  | c :: cs => encodeChar c ++ encode cs

/-- `len(text.encode("utf-8"))`, the byte length used by the caps. -/
def byteLen (s : Str) : Nat := (encode s).length

/-- Whether a byte is a UTF-8 continuation byte; for bytes `b < 256` this
is exactly the source's test `(b & 0b1100_0000) == 0b1000_0000`. -/
def isCont (b : Nat) : Bool := 0x80 ≤ b && b < 0xC0

/-- The backward walk of `_truncate_bytes`: drop trailing continuation
bytes (`while truncated and (truncated[-1] & 0xC0) == 0x80: ...`). -/
def stripCont (l : List Nat) : List Nat :=
  (l.reverse.dropWhile isCont).reverse

/-- `bytes.decode("utf-8", errors="ignore")`: decode well-formed UTF-8
sequences, silently skipping invalid or incomplete ones. -/
def decodeIgnore : List Nat → Str
  | [] => []
  | [b0] => if b0 < 0x80 then [Char.ofNat b0] else []
  | [b0, b1] =>
    if b0 < 0x80 then Char.ofNat b0 :: decodeIgnore [b1]
    else if b0 < 0xC2 then decodeIgnore [b1]
    else if b0 < 0xE0 then
      if isCont b1 then [Char.ofNat ((b0 - 0xC0) * 0x40 + (b1 - 0x80))]
      else decodeIgnore [b1]
    else decodeIgnore [b1]
  | [b0, b1, b2] =>
    if b0 < 0x80 then Char.ofNat b0 :: decodeIgnore [b1, b2]
    else if b0 < 0xC2 then decodeIgnore [b1, b2]
    else if b0 < 0xE0 then
      if isCont b1 then
        Char.ofNat ((b0 - 0xC0) * 0x40 + (b1 - 0x80)) :: decodeIgnore [b2]
      else decodeIgnore [b1, b2]
    else if b0 < 0xF0 then
      if isCont b1 && isCont b2 && (0xE1 ≤ b0 || 0xA0 ≤ b1) &&
          (b0 ≠ 0xED || b1 < 0xA0) then
        [Char.ofNat ((b0 - 0xE0) * 0x1000 + (b1 - 0x80) * 0x40 + (b2 - 0x80))]
      else decodeIgnore [b1, b2]
    else decodeIgnore [b1, b2]
  | b0 :: b1 :: b2 :: b3 :: rest =>
    if b0 < 0x80 then Char.ofNat b0 :: decodeIgnore (b1 :: b2 :: b3 :: rest)
    else if b0 < 0xC2 then decodeIgnore (b1 :: b2 :: b3 :: rest)
    else if b0 < 0xE0 then
      if isCont b1 then
        Char.ofNat ((b0 - 0xC0) * 0x40 + (b1 - 0x80)) ::
          decodeIgnore (b2 :: b3 :: rest)
      else decodeIgnore (b1 :: b2 :: b3 :: rest)
    else if b0 < 0xF0 then
      if isCont b1 && isCont b2 && (0xE1 ≤ b0 || 0xA0 ≤ b1) &&
          (b0 ≠ 0xED || b1 < 0xA0) then
        Char.ofNat ((b0 - 0xE0) * 0x1000 + (b1 - 0x80) * 0x40 + (b2 - 0x80))
          :: decodeIgnore (b3 :: rest)
      else decodeIgnore (b1 :: b2 :: b3 :: rest)
    else if b0 < 0xF5 then
      if isCont b1 && isCont b2 && isCont b3 && (0xF1 ≤ b0 || 0x90 ≤ b1) &&
          (b0 ≠ 0xF4 || b1 < 0x90) then
        Char.ofNat ((b0 - 0xF0) * 0x40000 + (b1 - 0x80) * 0x1000 +
          (b2 - 0x80) * 0x40 + (b3 - 0x80)) :: decodeIgnore rest
      else decodeIgnore (b1 :: b2 :: b3 :: rest)
    else decodeIgnore (b1 :: b2 :: b3 :: rest)

/-! ### The truncation pass (`core.py: _truncate_bytes`, `_truncate_diff`) -/

/-- `_truncate_bytes(text, max_bytes)`: take the first `max_bytes` UTF-8
bytes, drop any trailing incomplete multi-byte character, decode back. -/
def truncateBytes (text : Str) (maxBytes : Nat) : Str :=
  if (encode text).length ≤ maxBytes then text
  else decodeIgnore (stripCont ((encode text).take maxBytes))

/-- The second half of `_truncate_diff`: clamp to `max_bytes` UTF-8 bytes
(when that cap is positive), marking the truncated flag when the clamp
fires.  Caps are Python ints, so they are modelled as `Int`. -/
def truncateDiffByteStage (maxBytes : Int) (st : Str × Bool) : Str × Bool :=
  if maxBytes > 0 then
    if ((encode st.1).length : Int) > maxBytes then
      (truncateBytes st.1 maxBytes.toNat, true)
    else st
  else st

/-- `core.py: _truncate_diff(diff, max_bytes, max_lines)`: clamp to the
first `max_lines` lines (when that cap is positive), then to `max_bytes`
UTF-8 bytes via `truncateDiffByteStage`; also report whether either clamp
fired. -/
def truncateDiff (diff : Str) (maxBytes maxLines : Int) : Str × Bool :=
  truncateDiffByteStage maxBytes
    (if maxLines > 0 then
      (if ((pySplitlines diff).length : Int) > maxLines then
        (List.intercalate (str "\n") ((pySplitlines diff).take
          maxLines.toNat), true)
      else (diff, false))
    else (diff, false))

/-! ### Data model (`core.py`, `git.py` dataclasses and configuration) -/

/-- The slice of `Config` consumed by the context engine (`config.py`);
Python ints, so possibly negative (≤ 0 disables a cap). -/
structure Config where
  maxDiffBytes : Int
  maxPatchLines : Int
  maxLogEntries : Int
  maxLogPaths : Int
  maxLogBodyLines : Int
deriving DecidableEq

/-- `git.py: CommitMessage`. -/
structure CommitMessage where
  subject : Str
  body : Str
deriving DecidableEq

/-- `git.py: LogContext` (the spec's `LogScope`). -/
structure LogContext where
  path : Str
  entries : List CommitMessage
deriving DecidableEq

/-- `git.py: DiffNumStat`; `added`/`deleted` are `None` exactly for binary
entries. -/
structure DiffNumStat where
  path : Str
  added : Option Nat
  deleted : Option Nat
  isBinary : Bool
  pathBefore : Option Str := none
deriving DecidableEq

/-- A fixed snapshot of the version-control collaborator's responses, as
the spec's idempotence clause postulates.  `stagedFiles`, `nameStatus`,
`diffStat` and `numstatResp` hold the responses after the trivial
acquisition-layer parsing of `git.py` (`get_staged_files`,
`get_name_status`, `get_diff_stat`, `get_diff_numstat`), which no claim
touches; `numstatResp = none` models a `GitError` from the numstat query,
and `logOutput p n = none` models a `GitError` from a `git log` query
(the raw log stdout is kept, because `_get_log_entries` parses it). -/
structure GitSnapshot where
  stagedFiles : List Str
  nameStatus : Str
  diffStat : Str
  numstatResp : Option (List DiffNumStat)
  diffPatchAll : Str
  diffPatchFor : Str → Str
  hasCommits : Bool
  logOutput : Option Str → Int → Option Str

/-! ### Exclusion filter and diff budget allocator (`core.py`) -/

/-- `core.py: _HARD_EXCLUDED_BASENAMES`. -/
def hardExcludedBasenames : List Str :=
  [str "bun.lockb", str "Cargo.lock", str "composer.lock",
   str "Gemfile.lock", str "go.sum", str "go.work.sum", str "mix.lock",
   str "npm-shrinkwrap.json", str "package-lock.json",
   str "Package.resolved", str "Pipfile.lock", str "pnpm-lock.yaml",
   str "pnpm-lock.yml", str "poetry.lock", str "pdm.lock",
   str "pubspec.lock", str "uv.lock", str "yarn.lock"]

/-- `core.py: _MAX_EXCLUDED_LIST`. -/
def maxExcludedList : Nat := 50

/-- `pathlib.Path(path).name`, modelled for the relative paths git
produces: the last path segment, ignoring empty and `"."` segments. -/
def pyPathName (p : Str) : Str :=
  (((pySplitOn '/' p).filter
    (fun part => decide (part ≠ [] ∧ part ≠ ['.']))).getLast?).getD []

/-- `core.py: _is_hard_excluded`. -/
def isHardExcluded (p : Str) : Bool :=
  decide (pyPathName p ∈ hardExcludedBasenames)

/-- `core.py: _estimate_tokens`: `ceil(len(text) / 4)` over the CHARACTER
count (`len` of a Python `str`), with `0` for the empty text. -/
def estimateTokens (text : Str) : Nat :=
  if text.isEmpty then 0 else (text.length + 3) / 4

/-- `core.py: _token_budget_from_bytes`: `ceil(max_diff_bytes / 4)` when
the byte cap is positive, else `0`. -/
def tokenBudgetFromBytes (maxDiffBytes : Int) : Int :=
  if maxDiffBytes ≤ 0 then 0 else ((maxDiffBytes.toNat + 3) / 4 : Nat)

/-- `core.py: _would_exceed_budget`. -/
def wouldExceedBudget (usedLines newLines usedBytes newBytes
    usedTokens newTokens : Nat) (cfg : Config) : Bool :=
  (decide (0 < cfg.maxPatchLines) &&
    decide (cfg.maxPatchLines < ((usedLines + newLines : Nat) : Int))) ||
  (decide (0 < cfg.maxDiffBytes) &&
    decide (cfg.maxDiffBytes < ((usedBytes + newBytes : Nat) : Int))) ||
  (decide (0 < tokenBudgetFromBytes cfg.maxDiffBytes) &&
    decide (tokenBudgetFromBytes cfg.maxDiffBytes <
      ((usedTokens + newTokens : Nat) : Int)))

/-- `entry.added or 0` plus `entry.deleted or 0` (`None` counts as 0, and
Python's `or` maps an explicit 0 to 0 as well). -/
def changedOf (e : DiffNumStat) : Nat := e.added.getD 0 + e.deleted.getD 0

/-- `core.py: _diff_entry_sort_key`. -/
def diffEntrySortKey (e : DiffNumStat) : Int × Str :=
  (-(changedOf e : Int), e.path)

/-- Strict `<` on `(int, str)` sort keys: Python tuple comparison is
lexicographic, and Python string `<` compares code points, which is the
lexicographic order on `List Char`. -/
def keyLtIS (x y : Int × Str) : Bool :=
  decide (toLex x < toLex y)

/-- Stable insertion step: place `x` before the first element not
strictly below it. -/
def insertSorted (lt : α → α → Bool) (x : α) : List α → List α
  | [] => [x]
  | y :: ys => if lt y x then y :: insertSorted lt x ys else x :: y :: ys

/-- Stable ascending sort (models Python's stable `sorted`). -/
def insSort (lt : α → α → Bool) : List α → List α
  | [] => []
  | x :: xs => insertSorted lt x (insSort lt xs)

/-- Decimal rendering of a nonnegative int (Python f-string `{n}`). -/
def natToStr (n : Nat) : Str := (toString n).data

/-- The first classification loop of `_build_filtered_diff`: record lock
files and binary files as excluded, keep the rest as candidates. -/
def classifyEntries : List DiffNumStat → List (Str × Str) × List DiffNumStat
  | [] => ([], [])
  | e :: rest =>
    let r := classifyEntries rest
    if isHardExcluded e.path then
      ((e.path, str "excluded lock file") :: r.1, r.2)
    else if e.isBinary then
      ((e.path, str "binary file") :: r.1, r.2)
    else (r.1, e :: r.2)

/-- The `large_diff` pre-filter loop of `_build_filtered_diff`. -/
def largeFilter (limit : Nat) :
    List DiffNumStat → List (Str × Str) × List DiffNumStat
  | [] => ([], [])
  | e :: rest =>
    let r := largeFilter limit rest
    if limit ≤ changedOf e then
      ((e.path, str "large diff (" ++ natToStr (changedOf e) ++ str " lines)")
        :: r.1, r.2)
    else (r.1, e :: r.2)

/-- The incremental packing loop of `_build_filtered_diff`: fetch each
candidate's patch, skip blank patches, exclude candidates that would
exceed a budget, otherwise accept and count them. -/
def packPatches (snap : GitSnapshot) (cfg : Config) :
    List DiffNumStat → List Str → Nat → Nat → Nat → List (Str × Str) →
    Bool → List Str × List (Str × Str) × Bool
  | [], chunks, _, _, _, excluded, filtered => (chunks, excluded, filtered)
  | e :: rest, chunks, usedLines, usedBytes, usedTokens, excluded, filtered =>
    let patch := pyRstrip (fun c => c = '\n') (snap.diffPatchFor e.path)
    if (pyStrip isPyWs patch).isEmpty then
      packPatches snap cfg rest chunks usedLines usedBytes usedTokens
        excluded filtered
    else
      let patchLines := (pySplitlines patch).length
      let patchBytes := (encode patch).length
      let patchTokens := estimateTokens patch
      if wouldExceedBudget usedLines patchLines usedBytes patchBytes
          usedTokens patchTokens cfg then
        packPatches snap cfg rest chunks usedLines usedBytes usedTokens
          (excluded ++ [(e.path, str "diff budget (" ++
            natToStr (changedOf e) ++ str " lines)")]) true
      else
        packPatches snap cfg rest (chunks ++ [patch])
          (usedLines + patchLines) (usedBytes + patchBytes)
          (usedTokens + patchTokens) excluded filtered

/-- `core.py: _format_excluded_files`. -/
def formatExcludedFiles (excluded : List (Str × Str)) : Str :=
  let lines := str "Excluded files from diff context:" ::
    (excluded.take maxExcludedList).map
      (fun pr => str "- " ++ pr.1 ++ str " (" ++ pr.2 ++ str ")")
  let remaining : Int := (excluded.length : Int) - (maxExcludedList : Int)
  let lines := if remaining > 0 then
      lines ++ [str "- ... and " ++ natToStr remaining.toNat ++ str " more"]
    else lines
  List.intercalate (str "\n") lines

/-- `core.py: _build_filtered_diff`; `none` models the uncaught
`GitError` when the numstat query fails. -/
def buildFilteredDiff (snap : GitSnapshot) (cfg : Config) :
    Option (Str × Bool × Bool) :=
  match snap.numstatResp with
  | none => none
  | some entries =>
    if entries.isEmpty then
      let tr := truncateDiff snap.diffPatchAll cfg.maxDiffBytes
        cfg.maxPatchLines
      some (tr.1, false, tr.2)
    else
      let cl := classifyEntries entries
      let totalChangedLines := (cl.2.map changedOf).sum
      let largeDiff : Bool := decide (0 < cfg.maxPatchLines) &&
        decide (cfg.maxPatchLines < (totalChangedLines : Int))
      let perFileLineLimit : Nat :=
        if 0 < cfg.maxPatchLines then max 200 (cfg.maxPatchLines.toNat / 2)
        else 200
      let lf := if largeDiff then largeFilter perFileLineLimit cl.2
        else ([], cl.2)
      let excluded := cl.1 ++ lf.1
      let candidates := lf.2
      let sortedCands := insSort
        (fun a b => keyLtIS (diffEntrySortKey a) (diffEntrySortKey b))
        candidates
      let packed := packPatches snap cfg sortedCands [] 0 0 0 excluded
        (!excluded.isEmpty)
      let chunks := packed.1
      let excludedF := packed.2.1
      let filtered := packed.2.2
      let diffText := pyStrip isPyWs
        (List.intercalate (str "\n\n") (chunks.filter (fun c => !c.isEmpty)))
      let diffText :=
        if excludedF.isEmpty then diffText
        else
          let excludedText := formatExcludedFiles excludedF
          if diffText.isEmpty then excludedText
          else diffText ++ str "\n\n" ++ excludedText
      let tr := truncateDiff diffText cfg.maxDiffBytes cfg.maxPatchLines
      some (tr.1, filtered, tr.2)

/-! ### Log context selection (`git.py`) -/

/-- `git.py: _split_parts`. -/
def splitParts (p : Str) : List Str :=
  (pySplitOn '/' p).filter (fun part => !part.isEmpty)

/-- The prefix-collecting loop of `_common_prefix`: keep taking the next
segment of the first path while all paths agree on it. -/
def pfxGo : List Str → List (List Str) → List Str
  | [], _ => []
  | seg :: restFirst, others =>
    if others.all (fun parts => decide (parts.head? = some seg)) then
      seg :: pfxGo restFirst (others.map (·.tail))
    else []

/-- `git.py: _common_prefix` (renders the shared leading segments joined
with `"/"`). -/
def commonPfx (paths : List Str) : Str :=
  let partsList := (paths.filter (fun p => !p.isEmpty)).map splitParts
  match partsList with
  | [] => []
  | first :: _ => List.intercalate (str "/") (pfxGo first partsList)

/-- `str(pathlib.Path(file).parent)`, modelled for the relative paths git
produces: drop the last segment (ignoring empty and `"."` segments),
giving `"."` for top-level files. -/
def pyParent (p : Str) : Str :=
  let parts := (pySplitOn '/' p).filter
    (fun part => decide (part ≠ [] ∧ part ≠ ['.']))
  if parts.length ≤ 1 then str "."
  else List.intercalate (str "/") parts.dropLast

/-- `changed_lines.get(file, 0)` over the insertion-ordered association
list that models the Python dict. -/
def lookupChanged (changed : List (Str × Nat)) (p : Str) : Nat :=
  (((changed.find? (fun kv => decide (kv.1 = p))).map (·.2)).getD 0)

/-- `scores[key] = scores.get(key, 0) + v` on the insertion-ordered
association list: update in place, or append a new key. -/
def updAssoc (k : Str) (v : Nat) : List (Str × Nat) → List (Str × Nat)
  | [] => [(k, v)]
  | kv :: rest =>
    if kv.1 = k then (kv.1, kv.2 + v) :: rest else kv :: updAssoc k v rest

/-- The grouping loop of `_best_changed_path`: total changed lines per
(file if top-level, else parent directory). -/
def buildScores (files : List Str) (changed : List (Str × Nat)) :
    List (Str × Nat) :=
  files.foldl (fun scores file =>
    if file.isEmpty then scores
    else
      let parent := pyParent file
      let key := if parent = str "." then file else parent
      updAssoc key (lookupChanged changed file) scores) []

/-- The sort key of `_best_changed_path`,
`(-score, -len(_split_parts(key)), key)`, as a lexicographically ordered
triple (Python tuple comparison). -/
def bcpKey (kv : Str × Nat) : Lex (Int × Lex (Int × Str)) :=
  toLex (-(kv.2 : Int), toLex (-((splitParts kv.1).length : Int), kv.1))

/-- Strict `<` between `_best_changed_path` sort keys. -/
def bcpLt (a b : Str × Nat) : Bool := decide (bcpKey a < bcpKey b)

/-- `git.py: _best_changed_path`. -/
def bestChangedPath (stagedFiles : List Str) (changed : List (Str × Nat)) :
    Str :=
  if stagedFiles.isEmpty then []
  else
    let scores := buildScores stagedFiles changed
    if scores.isEmpty then []
    else
      match insSort bcpLt scores with
      | [] => []
      | kv :: _ => kv.1

/-- The selection rule exactly as the spec words it, for the refinement
comparison of claim C3: same grouping, but ties on the changed-line total
broken by SHALLOWEST path depth first (`+len` instead of the code's
`-len`), then lexicographically. -/
def bcpKeyShallow (kv : Str × Nat) : Lex (Int × Lex (Int × Str)) :=
  toLex (-(kv.2 : Int), toLex (((splitParts kv.1).length : Int), kv.1))

/-- `_best_changed_path` as the spec describes it (shallowest-first
tie-break); written only to be compared with `bestChangedPath`. -/
def bestChangedPathShallow (stagedFiles : List Str)
    (changed : List (Str × Nat)) : Str :=
  if stagedFiles.isEmpty then []
  else
    let scores := buildScores stagedFiles changed
    if scores.isEmpty then []
    else
      match insSort (fun a b => decide (bcpKeyShallow a < bcpKeyShallow b))
          scores with
      | [] => []
      | kv :: _ => kv.1

/-- `git.py: _select_log_paths`. -/
def selectLogPaths (stagedFiles : List Str) (maxPaths : Int)
    (changed : List (Str × Nat)) : List Str :=
  if stagedFiles.isEmpty ∨ maxPaths ≤ 0 then []
  else
    let staged := stagedFiles.filter (fun f => !f.isEmpty)
    let shared := commonPfx staged
    if shared.isEmpty then
      let fallback := bestChangedPath staged changed
      if fallback.isEmpty then [] else [fallback]
    else [shared]

/-- `git.py: _build_changed_line_map` (its caught `GitError` yields the
empty map). -/
def buildChangedLineMap (snap : GitSnapshot) (stagedFiles : List Str) :
    List (Str × Nat) :=
  if stagedFiles.isEmpty then []
  else
    let stagedSet := stagedFiles.filter (fun f => !f.isEmpty)
    if stagedSet.isEmpty then []
    else
      match snap.numstatResp with
      | none => []
      | some entries =>
        entries.foldl (fun changed e =>
          if e.path ∈ stagedSet then updAssoc e.path (changedOf e) changed
          else changed) []

/-- The parsing loop of `_get_log_entries`: split the raw `git log`
output on the `----END----` delimiter and turn each non-blank chunk into
a `(subject, body)` pair. -/
def parseLogOutput (output : Str) : List CommitMessage :=
  (pySplitSub (str "----END----") output).filterMap (fun chunk =>
    let text := pyStrip (fun c => c = '\n') chunk
    if (pyStrip isPyWs text).isEmpty then none
    else
      match pySplitlines text with
      | [] => none
      | first :: rest =>
        some { subject := pyStrip isPyWs first,
               body := pyStrip isPyWs
                 (List.intercalate (str "\n") (rest.map (pyRstrip isPyWs))) })

/-- `git.py: _get_log_entries` (a failing `git log` is caught and yields
no entries). -/
def getLogEntries (snap : GitSnapshot) (path : Option Str)
    (maxEntries : Int) : List CommitMessage :=
  if maxEntries ≤ 0 then []
  else
    match snap.logOutput path maxEntries with
    | none => []
    | some output => parseLogOutput output

/-- `git.py: _dedupe_entries`, returning the kept entries together with
the grown `seen` set (modelled as a list of `(subject, body)` keys). -/
def dedupeEntries :
    List CommitMessage → List (Str × Str) → List CommitMessage × List (Str × Str)
  | [], seen => ([], seen)
  | e :: rest, seen =>
    if (e.subject, e.body) ∈ seen then dedupeEntries rest seen
    else
      let r := dedupeEntries rest ((e.subject, e.body) :: seen)
      (e :: r.1, r.2)

/-- The primary-scope step of `gather_log_context`: dedupe the primary
path's log entries against a fresh `seen` set and build the primary
`LogContext` (when non-empty).  Returns (primary entries, grown seen set,
contexts so far). -/
def gatherPrimary (snap : GitSnapshot) (targetEntries : Int) :
    List Str → List CommitMessage × List (Str × Str) × List LogContext
  | [] => ([], [], [])
  | primaryPath :: _ =>
    let d := dedupeEntries
      (getLogEntries snap (some primaryPath) targetEntries) []
    (d.1, d.2, if d.1.isEmpty then [] else [⟨primaryPath, d.1⟩])

/-- The repository-wide backfill step of `gather_log_context`: when the
primary scope yielded fewer than `targetEntries` exemplars, dedupe up to
`maxEntries` repository-wide entries against the same `seen` set and trim
them to the remaining slot count. -/
def gatherBackfill (snap : GitSnapshot) (maxEntries targetEntries : Int)
    (step : List CommitMessage × List (Str × Str) × List LogContext) :
    List LogContext :=
  if (step.1.length : Int) < targetEntries then
    let repoAll := (dedupeEntries (getLogEntries snap none maxEntries)
      step.2.1).1
    let repoEntries :=
      if (targetEntries - (step.1.length : Int)) < (repoAll.length : Int)
      then repoAll.take (targetEntries - (step.1.length : Int)).toNat
      else repoAll
    if repoEntries.isEmpty then step.2.2
    else step.2.2 ++ [⟨str "repository", repoEntries⟩]
  else step.2.2

/-- `git.py: gather_log_context`, assembled from `gatherPrimary` and
`gatherBackfill` with `targetEntries = min(max_entries, 10)`. -/
def gatherLogContext (snap : GitSnapshot) (stagedFiles : List Str)
    (maxPaths maxEntries : Int) : List LogContext :=
  if maxPaths ≤ 0 ∨ maxEntries ≤ 0 then []
  else
    if min maxEntries 10 ≤ 0 then []
    else
      gatherBackfill snap maxEntries (min maxEntries 10)
        (gatherPrimary snap (min maxEntries 10)
          (selectLogPaths stagedFiles maxPaths
            (buildChangedLineMap snap stagedFiles)))

/-- `(subject, body)`, the deduplication identity of a commit exemplar. -/
def msgKey (e : CommitMessage) : Str × Str := (e.subject, e.body)

/-- All exemplars of a returned `LogScope` list, in order. -/
def contextEntries (ctxs : List LogContext) : List CommitMessage :=
  (ctxs.map LogContext.entries).flatten

/-! ### Context assembly (`core.py: collect_context`) -/

/-- Failure modes of `collect_context`: the empty-inventory `UserError`
and a propagated `GitError`. -/
inductive CmtrError where
  | userError (msg : Str)
  | gitError
deriving DecidableEq

/-- `core.py: CommitContext` (the spec's `ContextPayload`). -/
structure CommitContext where
  repoRoot : Str
  stagedFiles : List Str
  nameStatus : Str
  diffStat : Str
  diffPatch : Str
  diffWasTruncated : Bool
  diffWasFiltered : Bool
  logContexts : List LogContext
  hasCommitHistory : Bool
deriving DecidableEq

/-- `core.py: collect_context`. -/
def collectContext (repoRoot : Str) (snap : GitSnapshot) (cfg : Config) :
    Except CmtrError CommitContext :=
  let stagedFiles := snap.stagedFiles
  if stagedFiles.isEmpty then
    .error (.userError
      (str "No staged changes found. Stage files before running cmtr."))
  else
    match buildFilteredDiff snap cfg with
    | none => .error .gitError
    | some (diffPatch, diffFiltered, diffTruncated) =>
      let hasCommitHistory := snap.hasCommits
      let logPaths :=
        if diffFiltered then
          let kept := stagedFiles.filter (fun p => !isHardExcluded p)
          if kept.isEmpty then stagedFiles else kept
        else stagedFiles
      let logContexts :=
        if hasCommitHistory then
          gatherLogContext snap logPaths cfg.maxLogPaths cfg.maxLogEntries
        else []
      .ok { repoRoot := repoRoot, stagedFiles := stagedFiles,
            nameStatus := snap.nameStatus, diffStat := snap.diffStat,
            diffPatch := diffPatch, diffWasTruncated := diffTruncated,
            diffWasFiltered := diffFiltered, logContexts := logContexts,
            hasCommitHistory := hasCommitHistory }

/-! ### Concrete snapshots used by witnesses and counterexamples -/

/-- A concrete snapshot: one staged text file, an empty numstat entry
list, and a one-commit log history. -/
def snapEx : GitSnapshot where
  stagedFiles := [str "a.txt"]
  nameStatus := str "M\ta.txt"
  diffStat := str " a.txt | 2 +-"
  numstatResp := some []
  diffPatchAll := str "diff --git a/a.txt b/a.txt\n+hello\n-world\n"
  diffPatchFor := fun _ => str ""
  hasCommits := false
  logOutput := fun _ _ => some (str "fix: a\n----END----")

/-- A concrete snapshot whose log queries all fail (so they yield no
entries), with one staged file carrying a small one-file numstat. -/
def snapQuiet : GitSnapshot where
  stagedFiles := [str "a.txt"]
  nameStatus := str "M\ta.txt"
  diffStat := str " a.txt | 2 +-"
  numstatResp := some [⟨str "a.txt", some 1, some 1, false, none⟩]
  diffPatchAll := str "diff --git a/a.txt b/a.txt\n+hello\n-world\n"
  diffPatchFor := fun _ => str "diff --git a/a.txt b/a.txt\n+hello\n-world"
  hasCommits := true
  logOutput := fun _ _ => none

/-- The default configuration values of `config.py` (the fields the
engine consumes). -/
def cfgEx : Config := ⟨12000, 400, 20, 4, 6⟩

end Cmtr

namespace Cmtr

example : pySplitlines (str "a\nb") = [str "a", str "b"] := by decide
example : pySplitlines (str "a\r\nb\n") = [str "a", str "b"] := by decide
example : pySplitlines (str "") = [] := by decide
example : encode (str "é") = [0xC3, 0xA9] := by decide
example : truncateBytes (str "aé") 2 = str "a" := by decide
example : truncateBytes (str "éa") 2 = str "" := by decide
example : truncateDiff (str "a\nb\nc") 0 2 = (str "a\nb", true) := by decide
example : pySplitSub (str "--") (str "a--b--") = [str "a", str "b", str ""] := by
  decide

/-! ### Facts about `pySplitlines` -/

theorem slCons_length (c : Char) (ls : List Str) :
    (slCons c ls).length = if ls.isEmpty then 1 else ls.length := by
  cases ls <;> simp [slCons]

theorem one_le_slCons_length (c : Char) (ls : List Str) :
    1 ≤ (slCons c ls).length := by
  cases ls <;> simp [slCons]

theorem slCons_length_le (c c' : Char) (A B : List Str)
    (h : A.length ≤ B.length) (hB : 1 ≤ B.length) :
    (slCons c A).length ≤ (slCons c' B).length := by
  cases A <;> cases B <;> simp [slCons] at * <;> omega

theorem one_le_length_pySplitlines (s : Str) (h : s ≠ []) :
    1 ≤ (pySplitlines s).length := by
  match s with
  | [] => exact absurd rfl h
  | [c] =>
    simp only [pySplitlines]
    split <;> simp
  | c1 :: c2 :: cs =>
    simp only [pySplitlines]
    split
    · split <;> simp
    · exact one_le_slCons_length c1 (pySplitlines (c2 :: cs))

theorem length_pySplitlines_singleton (c : Char) :
    (pySplitlines [c]).length = 1 := by
  simp only [pySplitlines]
  split <;> simp

theorem pySplitlines_cons_of_not_lb (c : Char) (s : Str) (h : isLB c = false)
    (hs : s ≠ []) : pySplitlines (c :: s) = slCons c (pySplitlines s) := by
  match s with
  | [] => exact absurd rfl hs
  | a :: t => simp [pySplitlines, h]

theorem pySplitlines_cons_lb (c : Char) (s : Str) (h : isLB c = true)
    (hcr : ¬(c = '\r' ∧ s.head? = some '\n')) :
    pySplitlines (c :: s) = [] :: pySplitlines s := by
  match s with
  | [] => simp [pySplitlines, h]
  | a :: t =>
    simp only [pySplitlines, h, if_true]
    rw [if_neg]
    intro hand
    exact hcr ⟨hand.1, by simp [hand.2]⟩

theorem pySplitlines_crlf (s : Str) :
    pySplitlines ('\r' :: '\n' :: s) = [] :: pySplitlines s := by
  have h : isLB '\r' = true := by decide
  simp [pySplitlines, h]

theorem not_lb_mem_pySplitlines :
    ∀ (s : Str), ∀ l ∈ pySplitlines s, ∀ c ∈ l, isLB c = false
  | [] => by simp [pySplitlines]
  | [a] => by
    intro l hl c hc
    by_cases h : isLB a = true
    · simp [pySplitlines, h] at hl
      subst hl
      simp at hc
    · simp [pySplitlines, h] at hl
      subst hl
      rcases List.mem_singleton.mp hc with rfl
      simpa using h
  | a1 :: a2 :: as => by
    intro l hl c hc
    by_cases h : isLB a1 = true
    · by_cases hcr : a1 = '\r' ∧ a2 = '\n'
      · obtain ⟨h1, h2⟩ := hcr
        subst h1
        subst h2
        rw [pySplitlines_crlf] at hl
        rcases List.mem_cons.mp hl with rfl | hl'
        · simp at hc
        · exact not_lb_mem_pySplitlines as l hl' c hc
      · rw [pySplitlines_cons_lb a1 (a2 :: as) h (by simpa using hcr)] at hl
        rcases List.mem_cons.mp hl with rfl | hl'
        · simp at hc
        · exact not_lb_mem_pySplitlines (a2 :: as) l hl' c hc
    · rw [pySplitlines_cons_of_not_lb a1 (a2 :: as)
        (by simpa using h) (by simp)] at hl
      rcases hsl : pySplitlines (a2 :: as) with _ | ⟨l0, ls⟩
      · rw [hsl] at hl
        simp only [slCons, List.mem_singleton] at hl
        subst hl
        rcases List.mem_singleton.mp hc with rfl
        simpa using h
      · rw [hsl] at hl
        simp only [slCons, List.mem_cons] at hl
        rcases hl with rfl | hl'
        · rcases List.mem_cons.mp hc with rfl | hc'
          · simpa using h
          · exact not_lb_mem_pySplitlines (a2 :: as) l0
              (by rw [hsl]; exact List.mem_cons_self l0 ls) c hc'
        · exact not_lb_mem_pySplitlines (a2 :: as) l
            (by rw [hsl]; exact List.mem_cons_of_mem l0 hl') c hc

theorem pySplitlines_append_newline :
    ∀ (l rest : Str), (∀ c ∈ l, isLB c = false) →
      pySplitlines (l ++ '\n' :: rest) = l :: pySplitlines rest
  | [], rest, _ => by
    rw [List.nil_append]
    rw [pySplitlines_cons_lb '\n' rest (by decide) (by simp)]
  | a :: l', rest, h => by
    have ha : isLB a = false := h a (by simp)
    have htail : l' ++ '\n' :: rest ≠ [] := by simp
    rw [List.cons_append,
      pySplitlines_cons_of_not_lb a (l' ++ '\n' :: rest) ha htail,
      pySplitlines_append_newline l' rest (fun c hc => h c (by simp [hc]))]
    simp [slCons]

theorem length_pySplitlines_le_one_of_not_lb :
    ∀ (l : Str), (∀ c ∈ l, isLB c = false) → (pySplitlines l).length ≤ 1
  | [], _ => by simp [pySplitlines]
  | [c], _ => by rw [length_pySplitlines_singleton]
  | c1 :: c2 :: cs, h => by
    have h1 : isLB c1 = false := h c1 (by simp)
    rw [pySplitlines_cons_of_not_lb c1 (c2 :: cs) h1 (by simp)]
    have := length_pySplitlines_le_one_of_not_lb (c2 :: cs)
      (fun c hc => h c (by simp at hc; rcases hc with hc | hc <;> simp [hc]))
    rw [slCons_length]
    split <;> omega

theorem length_pySplitlines_intercalate_le :
    ∀ (ls : List Str), (∀ l ∈ ls, ∀ c ∈ l, isLB c = false) →
      (pySplitlines (List.intercalate (str "\n") ls)).length ≤ ls.length
  | [], _ => by simp [List.intercalate, pySplitlines]
  | [l], h => by
    have : List.intercalate (str "\n") [l] = l := by
      simp [List.intercalate]
    rw [this]
    simpa using length_pySplitlines_le_one_of_not_lb l (h l (by simp))
  | l :: l2 :: ls, h => by
    have hstep : List.intercalate (str "\n") (l :: l2 :: ls) =
        l ++ '\n' :: List.intercalate (str "\n") (l2 :: ls) := by
      show List.intercalate (str "\n") (l :: l2 :: ls) = _
      simp [List.intercalate, List.intersperse_cons_cons, str]
    rw [hstep, pySplitlines_append_newline l _ (h l (by simp))]
    have := length_pySplitlines_intercalate_le (l2 :: ls)
      (fun x hx => h x (by simp at hx ⊢; tauto))
    simp only [List.length_cons] at this ⊢
    omega

theorem length_pySplitlines_take_le :
    ∀ (s : Str) (n : Nat),
      (pySplitlines (s.take n)).length ≤ (pySplitlines s).length
  | [], n => by simp
  | c :: cs, 0 => by simp [pySplitlines]
  | [c], n + 1 => by simp
  | c1 :: c2 :: cs, 1 => by
    show (pySplitlines [c1]).length ≤ _
    rw [length_pySplitlines_singleton]
    exact one_le_length_pySplitlines (c1 :: c2 :: cs) (by simp)
  | c1 :: c2 :: cs, n + 2 => by
    show (pySplitlines (c1 :: c2 :: cs.take n)).length ≤ _
    by_cases h : isLB c1 = true
    · by_cases hcr : c1 = '\r' ∧ c2 = '\n'
      · rw [hcr.1, hcr.2, pySplitlines_crlf, pySplitlines_crlf]
        have := length_pySplitlines_take_le cs n
        simp only [List.length_cons]
        omega
      · have hcr1 : ¬(c1 = '\r' ∧ (List.head? (c2 :: cs.take n)) = some '\n') := by
          simpa using hcr
        have hcr2 : ¬(c1 = '\r' ∧ (List.head? (c2 :: cs)) = some '\n') := by
          simpa using hcr
        rw [pySplitlines_cons_lb c1 _ h hcr1, pySplitlines_cons_lb c1 _ h hcr2]
        have := length_pySplitlines_take_le (c2 :: cs) (n + 1)
        simp only [List.take_succ_cons] at this
        simp only [List.length_cons]
        omega
    · have h' : isLB c1 = false := by simpa using h
      rw [pySplitlines_cons_of_not_lb c1 _ h' (by simp),
        pySplitlines_cons_of_not_lb c1 _ h' (by simp)]
      have hle := length_pySplitlines_take_le (c2 :: cs) (n + 1)
      simp only [List.take_succ_cons] at hle
      have hne := one_le_length_pySplitlines (c2 :: cs) (by simp)
      exact slCons_length_le c1 c1 _ _ hle hne

/-! ### Facts about the UTF-8 model -/

theorem length_encodeChar (c : Char) : (encodeChar c).length = utf8Size c := by
  unfold encodeChar utf8Size
  split_ifs <;> simp

theorem one_le_utf8Size (c : Char) : 1 ≤ utf8Size c := by
  unfold utf8Size
  split_ifs <;> omega

theorem byteLen_cons (c : Char) (cs : Str) :
    byteLen (c :: cs) = utf8Size c + byteLen cs := by
  simp [byteLen, encode, length_encodeChar]

theorem char_toNat_valid (c : Char) :
    c.toNat < 0xD800 ∨ (0xE000 ≤ c.toNat ∧ c.toNat < 0x110000) := c.valid

theorem encodeChar_head_tail (c : Char) :
    ∃ b0 tail, encodeChar c = b0 :: tail ∧ isCont b0 = false ∧
      (∀ b ∈ tail, isCont b = true) ∧ tail.length + 1 = utf8Size c ∧
      (2 ≤ utf8Size c → 0x80 ≤ b0) := by
  unfold encodeChar utf8Size
  split_ifs with h1 h2 h3
  · refine ⟨c.toNat, [], rfl, ?_, by simp, by simp, by omega⟩
    simp only [isCont]
    simp <;> omega
  · refine ⟨_, _, rfl, ?_, ?_, by simp, fun _ => by omega⟩
    · simp only [isCont]
      simp <;> omega
    · intro b hb
      simp at hb
      subst hb
      simp only [isCont]
      simp <;> omega
  · refine ⟨_, _, rfl, ?_, ?_, by simp, fun _ => by omega⟩
    · simp only [isCont]
      simp <;> omega
    · intro b hb
      simp at hb
      rcases hb with hb | hb <;> subst hb <;> simp only [isCont] <;> simp <;>
        omega
  · refine ⟨_, _, rfl, ?_, ?_, by simp, fun _ => by omega⟩
    · simp only [isCont]
      simp
      have := char_toNat_valid c
      omega
    · intro b hb
      simp at hb
      rcases hb with hb | hb | hb <;> subst hb <;> simp only [isCont] <;>
        simp <;> omega

theorem decodeIgnore_one (b0 : Nat) (t : List Nat) (h : b0 < 0x80) :
    decodeIgnore (b0 :: t) = Char.ofNat b0 :: decodeIgnore t := by
  match t with
  | [] => simp only [decodeIgnore]; rw [if_pos h]
  | [b1] => simp only [decodeIgnore]; rw [if_pos h]
  | [b1, b2] => simp only [decodeIgnore]; rw [if_pos h]
  | b1 :: b2 :: b3 :: r => simp only [decodeIgnore]; rw [if_pos h]

theorem decodeIgnore_two (b0 b1 : Nat) (t : List Nat) (h1 : 0xC2 ≤ b0)
    (h2 : b0 < 0xE0) (h3 : isCont b1 = true) :
    decodeIgnore (b0 :: b1 :: t) =
      Char.ofNat ((b0 - 0xC0) * 0x40 + (b1 - 0x80)) :: decodeIgnore t := by
  match t with
  | [] =>
    simp only [decodeIgnore]
    rw [if_neg (by omega), if_neg (by omega), if_pos h2, if_pos h3]
  | [b2] =>
    simp only [decodeIgnore]
    rw [if_neg (by omega), if_neg (by omega), if_pos h2, if_pos h3]
  | b2 :: b3 :: r =>
    simp only [decodeIgnore]
    rw [if_neg (by omega), if_neg (by omega), if_pos h2, if_pos h3]

theorem decodeIgnore_three (b0 b1 b2 : Nat) (t : List Nat) (h1 : 0xE0 ≤ b0)
    (h2 : b0 < 0xF0) (h3 : isCont b1 = true) (h4 : isCont b2 = true)
    (h5 : 0xE1 ≤ b0 ∨ 0xA0 ≤ b1) (h6 : b0 ≠ 0xED ∨ b1 < 0xA0) :
    decodeIgnore (b0 :: b1 :: b2 :: t) =
      Char.ofNat ((b0 - 0xE0) * 0x1000 + (b1 - 0x80) * 0x40 + (b2 - 0x80))
        :: decodeIgnore t := by
  have hg : (isCont b1 && isCont b2 && (0xE1 ≤ b0 || 0xA0 ≤ b1) &&
      (b0 ≠ 0xED || b1 < 0xA0)) = true := by
    simp [h3, h4]
    constructor
    · rcases h5 with h | h <;> simp [h]
    · rcases h6 with h | h <;> simp [h]
  match t with
  | [] =>
    simp only [decodeIgnore]
    rw [if_neg (by omega), if_neg (by omega), if_neg (by omega), if_pos h2,
      if_pos hg]
  | b3 :: r =>
    simp only [decodeIgnore]
    rw [if_neg (by omega), if_neg (by omega), if_neg (by omega), if_pos h2,
      if_pos hg]

theorem decodeIgnore_four (b0 b1 b2 b3 : Nat) (t : List Nat)
    (h1 : 0xF0 ≤ b0) (h2 : b0 < 0xF5) (h3 : isCont b1 = true)
    (h4 : isCont b2 = true) (h5 : isCont b3 = true)
    (h6 : 0xF1 ≤ b0 ∨ 0x90 ≤ b1) (h7 : b0 ≠ 0xF4 ∨ b1 < 0x90) :
    decodeIgnore (b0 :: b1 :: b2 :: b3 :: t) =
      Char.ofNat ((b0 - 0xF0) * 0x40000 + (b1 - 0x80) * 0x1000 +
        (b2 - 0x80) * 0x40 + (b3 - 0x80)) :: decodeIgnore t := by
  have hg : (isCont b1 && isCont b2 && isCont b3 && (0xF1 ≤ b0 || 0x90 ≤ b1)
      && (b0 ≠ 0xF4 || b1 < 0x90)) = true := by
    simp [h3, h4, h5]
    constructor
    · rcases h6 with h | h <;> simp [h]
    · rcases h7 with h | h <;> simp [h]
  simp only [decodeIgnore]
  rw [if_neg (by omega), if_neg (by omega), if_neg (by omega),
    if_neg (by omega), if_pos h2, if_pos hg]

theorem decodeIgnore_single_hi (b0 : Nat) (h : 0x80 ≤ b0) :
    decodeIgnore [b0] = [] := by
  simp only [decodeIgnore]
  rw [if_neg (by omega)]

theorem decode_encodeChar (c : Char) (t : List Nat) :
    decodeIgnore (encodeChar c ++ t) = c :: decodeIgnore t := by
  have hv := char_toNat_valid c
  unfold encodeChar
  split_ifs with h1 h2 h3
  · rw [List.singleton_append, decodeIgnore_one c.toNat t h1,
      Char.ofNat_toNat]
  · rw [show [0xC0 + c.toNat / 0x40, 0x80 + c.toNat % 0x40] ++ t =
      (0xC0 + c.toNat / 0x40) :: (0x80 + c.toNat % 0x40) :: t from rfl]
    rw [decodeIgnore_two _ _ _ (by omega) (by omega)
      (by simp only [isCont]; simp <;> omega)]
    have harg : (0xC0 + c.toNat / 0x40 - 0xC0) * 0x40 +
        (0x80 + c.toNat % 0x40 - 0x80) = c.toNat := by omega
    rw [harg, Char.ofNat_toNat]
  · rw [show [0xE0 + c.toNat / 0x1000, 0x80 + c.toNat / 0x40 % 0x40,
      0x80 + c.toNat % 0x40] ++ t = (0xE0 + c.toNat / 0x1000) ::
      (0x80 + c.toNat / 0x40 % 0x40) :: (0x80 + c.toNat % 0x40) :: t
      from rfl]
    rw [decodeIgnore_three _ _ _ _ (by omega) (by omega)
      (by simp only [isCont]; simp <;> omega)
      (by simp only [isCont]; simp <;> omega) (by omega) (by omega)]
    have harg : (0xE0 + c.toNat / 0x1000 - 0xE0) * 0x1000 +
        (0x80 + c.toNat / 0x40 % 0x40 - 0x80) * 0x40 +
        (0x80 + c.toNat % 0x40 - 0x80) = c.toNat := by omega
    rw [harg, Char.ofNat_toNat]
  · rw [show [0xF0 + c.toNat / 0x40000, 0x80 + c.toNat / 0x1000 % 0x40,
      0x80 + c.toNat / 0x40 % 0x40, 0x80 + c.toNat % 0x40] ++ t =
      (0xF0 + c.toNat / 0x40000) :: (0x80 + c.toNat / 0x1000 % 0x40) ::
      (0x80 + c.toNat / 0x40 % 0x40) :: (0x80 + c.toNat % 0x40) :: t
      from rfl]
    rw [decodeIgnore_four _ _ _ _ _ (by omega) (by omega)
      (by simp only [isCont]; simp <;> omega)
      (by simp only [isCont]; simp <;> omega)
      (by simp only [isCont]; simp <;> omega) (by omega) (by omega)]
    have harg : (0xF0 + c.toNat / 0x40000 - 0xF0) * 0x40000 +
        (0x80 + c.toNat / 0x1000 % 0x40 - 0x80) * 0x1000 +
        (0x80 + c.toNat / 0x40 % 0x40 - 0x80) * 0x40 +
        (0x80 + c.toNat % 0x40 - 0x80) = c.toNat := by omega
    rw [harg, Char.ofNat_toNat]

theorem decode_encode_append (s : Str) (t : List Nat) :
    decodeIgnore (encode s ++ t) = s ++ decodeIgnore t := by
  induction s with
  | nil => simp [encode]
  | cons c cs ih =>
    simp only [encode, List.append_assoc]
    rw [decode_encodeChar c (encode cs ++ t), ih]
    rfl

/-! ### Facts about `stripCont` and `_truncate_bytes` -/

theorem stripCont_append_cont (a l : List Nat)
    (h : ∀ x ∈ l, isCont x = true) : stripCont (a ++ l) = stripCont a := by
  unfold stripCont
  rw [List.reverse_append, List.dropWhile_append]
  have hnil : l.reverse.dropWhile isCont = [] :=
    List.dropWhile_eq_nil_iff.mpr (fun x hx => h x (List.mem_reverse.mp hx))
  simp [hnil]

theorem stripCont_append_of_ne (a l : List Nat) (h : stripCont l ≠ []) :
    stripCont (a ++ l) = a ++ stripCont l := by
  unfold stripCont at *
  rw [List.reverse_append, List.dropWhile_append]
  have hne : ¬(l.reverse.dropWhile isCont).isEmpty = true := by
    intro hh
    rw [List.isEmpty_iff] at hh
    exact h (by rw [hh]; rfl)
  rw [if_neg hne, List.reverse_append]
  simp

theorem stripCont_single_not (b : Nat) (h : isCont b = false) :
    stripCont [b] = [b] := by
  unfold stripCont
  rw [show ([b] : List Nat).reverse = [b] from rfl]
  rw [List.dropWhile_cons_of_neg (by simp [h])]
  rfl

theorem stripCont_eq_nil_all_cont (l : List Nat) (h : stripCont l = []) :
    ∀ x ∈ l, isCont x = true := by
  unfold stripCont at h
  have hd : l.reverse.dropWhile isCont = [] := by
    have := congrArg List.reverse h
    simpa using this
  intro x hx
  exact List.dropWhile_eq_nil_iff.mp hd x (List.mem_reverse.mpr hx)

theorem decode_strip_take :
    ∀ (s : Str) (k : Nat),
      ∃ n, decodeIgnore (stripCont ((encode s).take k)) = s.take n ∧
        byteLen (s.take n) ≤ k
  | [], k => by
    refine ⟨0, ?_, ?_⟩ <;> simp [encode, stripCont, decodeIgnore, byteLen]
  | c :: cs, k => by
    obtain ⟨b0, tail, he, hb0, htail, hlen1, hhi⟩ := encodeChar_head_tail c
    have hlen : (encodeChar c).length = utf8Size c := length_encodeChar c
    by_cases hk : k < utf8Size c
    · have htake : (encode (c :: cs)).take k = (encodeChar c).take k := by
        simp only [encode]
        rw [List.take_append_eq_append_take]
        have hz : k - (encodeChar c).length = 0 := by omega
        rw [hz]
        simp
      rw [htake]
      rcases Nat.eq_zero_or_pos k with rfl | hkpos
      · exact ⟨0, by simp [stripCont, decodeIgnore], by simp [byteLen, encode]⟩
      · have hsz2 : 2 ≤ utf8Size c := by omega
        obtain ⟨k', rfl⟩ : ∃ k', k = k' + 1 := ⟨k - 1, by omega⟩
        rw [he, List.take_succ_cons]
        have hstr : stripCont (b0 :: tail.take k') = [b0] := by
          have h1 : stripCont ([b0] ++ tail.take k') = stripCont [b0] :=
            stripCont_append_cont [b0] _
              (fun x hx => htail x (List.take_subset _ _ hx))
          simpa [stripCont_single_not b0 hb0] using h1
        rw [hstr, decodeIgnore_single_hi b0 (hhi hsz2)]
        exact ⟨0, by simp, by simp [byteLen, encode]⟩
    · push_neg at hk
      have htake : (encode (c :: cs)).take k =
          encodeChar c ++ (encode cs).take (k - utf8Size c) := by
        simp only [encode]
        rw [List.take_append_eq_append_take,
          List.take_of_length_le (by omega), hlen]
      rw [htake]
      obtain ⟨n', hdec, hblen⟩ := decode_strip_take cs (k - utf8Size c)
      by_cases hX : stripCont ((encode cs).take (k - utf8Size c)) = []
      · have hcont := stripCont_eq_nil_all_cont _ hX
        rw [stripCont_append_cont _ _ hcont]
        by_cases hsz : utf8Size c = 1
        · -- single-byte head: it survives in full
          have ht0 : tail = [] := by
            have : tail.length = 0 := by omega
            simpa using this
          refine ⟨1, ?_, ?_⟩
          · have hstr : stripCont (encodeChar c) = encodeChar c := by
              rw [he, ht0]
              exact stripCont_single_not b0 hb0
            rw [hstr]
            have hd := decode_encodeChar c []
            simpa using hd
          · simp only [List.take_succ_cons, List.take_zero]
            rw [byteLen_cons]
            have hb : byteLen ([] : Str) = 0 := rfl
            omega
        · -- multi-byte head: its trailing bytes are stripped, its lead
          -- byte is then ignored by the decoder
          have hsz2 : 2 ≤ utf8Size c := by omega
          refine ⟨0, ?_, ?_⟩
          · rw [he]
            have hstr : stripCont (b0 :: tail) = [b0] := by
              have h1 : stripCont ([b0] ++ tail) = stripCont [b0] :=
                stripCont_append_cont [b0] tail htail
              simpa [stripCont_single_not b0 hb0] using h1
            rw [hstr, decodeIgnore_single_hi b0 (hhi hsz2)]
            simp
          · simp [byteLen, encode]
      · rw [stripCont_append_of_ne _ _ hX, decode_encodeChar c _, hdec]
        refine ⟨n' + 1, ?_, ?_⟩
        · simp [List.take_succ_cons]
        · rw [List.take_succ_cons, byteLen_cons]
          omega

theorem truncateBytes_spec (s : Str) (k : Nat) :
    ∃ n, truncateBytes s k = s.take n ∧ byteLen (s.take n) ≤ k := by
  unfold truncateBytes
  by_cases h : (encode s).length ≤ k
  · rw [if_pos h]
    exact ⟨s.length, by simp, by simpa [byteLen] using h⟩
  · rw [if_neg h]
    exact decode_strip_take s k

/-! ### The truncation pass respects both caps -/

theorem truncateDiffByteStage_lines (b : Int) (st : Str × Bool) :
    (pySplitlines (truncateDiffByteStage b st).1).length ≤
      (pySplitlines st.1).length := by
  unfold truncateDiffByteStage
  by_cases hb : b > 0
  · rw [if_pos hb]
    by_cases hbig : ((encode st.1).length : Int) > b
    · rw [if_pos hbig]
      obtain ⟨n, heq, _⟩ := truncateBytes_spec st.1 b.toNat
      simp only [heq]
      exact length_pySplitlines_take_le st.1 n
    · rw [if_neg hbig]
  · rw [if_neg hb]

theorem truncateDiffByteStage_bytes (b : Int) (st : Str × Bool)
    (hb : 0 < b) :
    (byteLen (truncateDiffByteStage b st).1 : Int) ≤ b := by
  unfold truncateDiffByteStage
  rw [if_pos hb]
  by_cases hbig : ((encode st.1).length : Int) > b
  · rw [if_pos hbig]
    obtain ⟨n, heq, hble⟩ := truncateBytes_spec st.1 b.toNat
    simp only [heq]
    omega
  · rw [if_neg hbig]
    simpa [byteLen] using not_lt.mp hbig

theorem truncateDiff_caps (diff : Str) (b l : Int) :
    (0 < l → ((pySplitlines (truncateDiff diff b l).1).length : Int) ≤ l) ∧
    (0 < b → (byteLen (truncateDiff diff b l).1 : Int) ≤ b) := by
  have hline : 0 < l → ((pySplitlines (if l > 0 then
      (if ((pySplitlines diff).length : Int) > l then
        (List.intercalate (str "\n") ((pySplitlines diff).take l.toNat),
          true)
      else (diff, false)) else (diff, false)).1).length : Int) ≤ l := by
    intro hl
    rw [if_pos hl]
    by_cases hgt : ((pySplitlines diff).length : Int) > l
    · rw [if_pos hgt]
      have hfree : ∀ x ∈ (pySplitlines diff).take l.toNat, ∀ c ∈ x,
          isLB c = false := fun x hx =>
        not_lb_mem_pySplitlines diff x (List.take_subset _ _ hx)
      have h1 := length_pySplitlines_intercalate_le _ hfree
      have h2 : ((pySplitlines diff).take l.toNat).length ≤ l.toNat := by
        simp [List.length_take]
      simp only at h1 ⊢
      omega
    · rw [if_neg hgt]
      simp only
      omega
  constructor
  · intro hl
    unfold truncateDiff
    have hmono := truncateDiffByteStage_lines b (if l > 0 then
      (if ((pySplitlines diff).length : Int) > l then
        (List.intercalate (str "\n") ((pySplitlines diff).take l.toNat),
          true)
      else (diff, false)) else (diff, false))
    have := hline hl
    omega
  · intro hbpos
    unfold truncateDiff
    exact truncateDiffByteStage_bytes b _ hbpos

/-! ### Facts about deduplication and the log selector -/

theorem dedupe_length_le :
    ∀ (l : List CommitMessage) (seen : List (Str × Str)),
      (dedupeEntries l seen).1.length ≤ l.length
  | [], _ => by simp [dedupeEntries]
  | e :: rest, seen => by
    simp only [dedupeEntries]
    split
    · have := dedupe_length_le rest seen
      simpa using Nat.le_succ_of_le this
    · have := dedupe_length_le rest ((e.subject, e.body) :: seen)
      simpa using this

theorem dedupe_seen_mono :
    ∀ (l : List CommitMessage) (seen : List (Str × Str)) (k : Str × Str),
      k ∈ seen → k ∈ (dedupeEntries l seen).2
  | [], _, _, hk => by simpa [dedupeEntries] using hk
  | e :: rest, seen, k, hk => by
    simp only [dedupeEntries]
    split
    · exact dedupe_seen_mono rest seen k hk
    · exact dedupe_seen_mono rest ((e.subject, e.body) :: seen) k
        (by simp [hk])

theorem dedupe_out_key_mem_seen2 :
    ∀ (l : List CommitMessage) (seen : List (Str × Str)) (e : CommitMessage),
      e ∈ (dedupeEntries l seen).1 → msgKey e ∈ (dedupeEntries l seen).2
  | [], _, _, he => by simp [dedupeEntries] at he
  | e0 :: rest, seen, e, he => by
    simp only [dedupeEntries] at he ⊢
    split at he
    · rename_i hmem
      rw [if_pos hmem]
      exact dedupe_out_key_mem_seen2 rest seen e he
    · rename_i hmem
      rw [if_neg hmem]
      rcases List.mem_cons.mp he with rfl | he'
      · exact dedupe_seen_mono rest _ _ (by simp [msgKey])
      · exact dedupe_out_key_mem_seen2 rest _ e he'

theorem dedupe_out_key_not_mem_seen :
    ∀ (l : List CommitMessage) (seen : List (Str × Str)) (e : CommitMessage),
      e ∈ (dedupeEntries l seen).1 → msgKey e ∉ seen
  | [], _, _, he => by simp [dedupeEntries] at he
  | e0 :: rest, seen, e, he => by
    simp only [dedupeEntries] at he
    split at he
    · exact dedupe_out_key_not_mem_seen rest seen e he
    · rename_i hmem
      rcases List.mem_cons.mp he with rfl | he'
      · simpa [msgKey] using hmem
      · intro hk
        exact dedupe_out_key_not_mem_seen rest _ e he' (by simp [hk])

theorem dedupe_pairwise :
    ∀ (l : List CommitMessage) (seen : List (Str × Str)),
      List.Pairwise (fun a b => msgKey a ≠ msgKey b) (dedupeEntries l seen).1
  | [], _ => by simp [dedupeEntries]
  | e :: rest, seen => by
    simp only [dedupeEntries]
    split
    · exact dedupe_pairwise rest seen
    · refine List.pairwise_cons.mpr ⟨?_, dedupe_pairwise rest _⟩
      intro b hb
      have := dedupe_out_key_not_mem_seen rest _ b hb
      intro hEq
      exact this (by rw [← hEq]; simp [msgKey])

theorem gatherPrimary_pairwise (snap : GitSnapshot) (t : Int)
    (lps : List Str) :
    List.Pairwise (fun a b => msgKey a ≠ msgKey b)
      (gatherPrimary snap t lps).1 := by
  cases lps with
  | nil => simp [gatherPrimary]
  | cons pp rest => exact dedupe_pairwise _ _

theorem gatherPrimary_key_mem_seen (snap : GitSnapshot) (t : Int)
    (lps : List Str) (e : CommitMessage)
    (he : e ∈ (gatherPrimary snap t lps).1) :
    msgKey e ∈ (gatherPrimary snap t lps).2.1 := by
  cases lps with
  | nil => simp [gatherPrimary] at he
  | cons pp rest => exact dedupe_out_key_mem_seen2 _ _ e he

theorem gatherPrimary_contextEntries (snap : GitSnapshot) (t : Int)
    (lps : List Str) :
    contextEntries (gatherPrimary snap t lps).2.2 =
      (gatherPrimary snap t lps).1 := by
  cases lps with
  | nil => simp [gatherPrimary, contextEntries]
  | cons pp rest =>
    simp only [gatherPrimary]
    by_cases hd : (dedupeEntries
        (getLogEntries snap (some pp) t) []).1.isEmpty
    · rw [List.isEmpty_iff] at hd
      simp [contextEntries, hd]
    · rw [if_neg hd]
      simp [contextEntries]

theorem gatherPrimary_length_le (snap : GitSnapshot) (t : Int)
    (lps : List Str)
    (H : ∀ (p : Option Str) (n : Int),
      (getLogEntries snap p n).length ≤ n.toNat) :
    (gatherPrimary snap t lps).1.length ≤ t.toNat := by
  cases lps with
  | nil => simp [gatherPrimary]
  | cons pp rest =>
    calc (gatherPrimary snap t (pp :: rest)).1.length
        ≤ (getLogEntries snap (some pp) t).length := dedupe_length_le _ _
      _ ≤ t.toNat := H (some pp) t

theorem contextEntries_append (a b : List LogContext) :
    contextEntries (a ++ b) = contextEntries a ++ contextEntries b := by
  simp [contextEntries]

theorem gatherBackfill_pairwise (snap : GitSnapshot) (m t : Int)
    (step : List CommitMessage × List (Str × Str) × List LogContext)
    (hpw : List.Pairwise (fun a b => msgKey a ≠ msgKey b)
      (contextEntries step.2.2))
    (hseen : ∀ e ∈ contextEntries step.2.2, msgKey e ∈ step.2.1) :
    List.Pairwise (fun a b => msgKey a ≠ msgKey b)
      (contextEntries (gatherBackfill snap m t step)) := by
  unfold gatherBackfill
  by_cases h1 : (step.1.length : Int) < t
  · rw [if_pos h1]
    set repoAll := (dedupeEntries (getLogEntries snap none m) step.2.1).1
      with hra
    set repoEntries := if (t - (step.1.length : Int)) < (repoAll.length : Int)
      then repoAll.take (t - (step.1.length : Int)).toNat else repoAll
      with hre
    have hsub : ∀ e ∈ repoEntries, e ∈ repoAll := by
      intro e he
      rw [hre] at he
      split at he
      · exact List.take_subset _ _ he
      · exact he
    by_cases h2 : repoEntries.isEmpty
    · rw [if_pos h2]
      exact hpw
    · rw [if_neg h2]
      rw [contextEntries_append]
      rw [List.pairwise_append]
      refine ⟨hpw, ?_, ?_⟩
      · have hra_pw : List.Pairwise (fun a b => msgKey a ≠ msgKey b)
            repoAll := dedupe_pairwise _ _
        have : contextEntries [⟨str "repository", repoEntries⟩] =
            repoEntries := by simp [contextEntries]
        rw [this, hre]
        split
        · exact hra_pw.sublist (List.take_sublist _ _)
        · exact hra_pw
      · intro a ha b hb
        have hb' : b ∈ repoAll := by
          have : contextEntries [⟨str "repository", repoEntries⟩] =
              repoEntries := by simp [contextEntries]
          rw [this] at hb
          exact hsub b hb
        have hnot := dedupe_out_key_not_mem_seen _ _ b hb'
        intro hEq
        exact hnot (hEq ▸ hseen a ha)
  · rw [if_neg h1]
    exact hpw

theorem gatherBackfill_length_le (snap : GitSnapshot) (m t : Int)
    (step : List CommitMessage × List (Str × Str) × List LogContext)
    (hctx : contextEntries step.2.2 = step.1)
    (hstep : step.1.length ≤ t.toNat)
    (H : ∀ (p : Option Str) (n : Int),
      (getLogEntries snap p n).length ≤ n.toNat) :
    (contextEntries (gatherBackfill snap m t step)).length ≤ t.toNat := by
  unfold gatherBackfill
  by_cases h1 : (step.1.length : Int) < t
  · rw [if_pos h1]
    set repoAll := (dedupeEntries (getLogEntries snap none m) step.2.1).1
      with hra
    set repoEntries := if (t - (step.1.length : Int)) < (repoAll.length : Int)
      then repoAll.take (t - (step.1.length : Int)).toNat else repoAll
      with hre
    have hrelen : repoEntries.length ≤ (t - (step.1.length : Int)).toNat := by
      rw [hre]
      split
      · rename_i hlt
        simp only [List.length_take]
        omega
      · rename_i hge
        omega
    by_cases h2 : repoEntries.isEmpty
    · rw [if_pos h2, hctx]
      exact hstep
    · rw [if_neg h2, contextEntries_append, hctx]
      have : contextEntries [⟨str "repository", repoEntries⟩] =
          repoEntries := by simp [contextEntries]
      rw [this]
      simp only [List.length_append]
      omega
  · rw [if_neg h1, hctx]
    exact hstep

theorem gatherBackfill_nil_path (snap : GitSnapshot) (m t : Int)
    (step : List CommitMessage × List (Str × Str) × List LogContext)
    (h : step.2.2 = []) :
    ∀ ctx ∈ gatherBackfill snap m t step, ctx.path = str "repository" := by
  intro ctx hctx
  unfold gatherBackfill at hctx
  rw [h] at hctx
  by_cases h1 : (step.1.length : Int) < t
  · rw [if_pos h1] at hctx
    dsimp only at hctx
    split at hctx <;> split at hctx <;>
        simp only [List.nil_append, List.mem_singleton,
          List.not_mem_nil] at hctx <;>
      (subst hctx; rfl)
  · rw [if_neg h1] at hctx
    simp at hctx

/-! ### Claims C4-C7: the log context selector -/

/-- Claim C4, counterexample: with `maxLogEntries = 0` the selector
returns no scopes even though the repository history is non-empty (the
log response parses to one exemplar), contradicting "still returns
commit-message exemplars ... rather than returning none". -/
theorem c4_counterexample :
    gatherLogContext snapEx [str "a.txt"] 5 0 = [] ∧
    parseLogOutput (str "fix: a\n----END----") ≠ [] := by
  constructor
  · decide
  · decide

/-- Claim C4 (amended): setting `maxLogEntries` to 0 or less disables log
context collection entirely: the selector returns no scopes. -/
theorem c4_amended (snap : GitSnapshot) (stagedFiles : List Str)
    (maxPaths maxEntries : Int) (h : maxEntries ≤ 0) :
    gatherLogContext snap stagedFiles maxPaths maxEntries = [] := by
  unfold gatherLogContext
  rw [if_pos (Or.inr h)]

theorem c4_amended_witness :
    gatherLogContext snapEx [str "a.txt"] 5 0 = [] :=
  c4_amended snapEx [str "a.txt"] 5 0 (by decide)

/-- Claim C5, counterexample: with an empty changed-path set (no staged
paths) and `targetEntries = 5 > 0`, the selector still returns the
repository-wide fallback scope, so it does not return an empty scope
list as claimed. -/
theorem c5_counterexample :
    gatherLogContext snapEx [] 5 5 =
      [⟨str "repository", [⟨str "fix: a", str ""⟩]⟩] ∧
    gatherLogContext snapEx [] 5 5 ≠ [] := by
  constructor
  · decide
  · decide

/-- Claim C5 (amended): if `targetEntries = min(maxLogEntries, 10) ≤ 0`
the selector returns no scopes; if the changed-path set is empty no
primary scope is produced, but the repository-wide fallback scope may
still be returned (every returned scope is the `"repository"` one). -/
theorem c5_amended (snap : GitSnapshot) (stagedFiles : List Str)
    (maxPaths maxEntries : Int) :
    (min maxEntries 10 ≤ 0 →
      gatherLogContext snap stagedFiles maxPaths maxEntries = []) ∧
    (stagedFiles = [] →
      ∀ ctx ∈ gatherLogContext snap stagedFiles maxPaths maxEntries,
        ctx.path = str "repository") := by
  constructor
  · intro h
    unfold gatherLogContext
    by_cases h1 : maxPaths ≤ 0 ∨ maxEntries ≤ 0
    · rw [if_pos h1]
    · rw [if_neg h1, if_pos h]
  · intro hs ctx hctx
    subst hs
    unfold gatherLogContext at hctx
    by_cases h1 : maxPaths ≤ 0 ∨ maxEntries ≤ 0
    · rw [if_pos h1] at hctx
      simp at hctx
    · rw [if_neg h1] at hctx
      by_cases h2 : min maxEntries 10 ≤ 0
      · rw [if_pos h2] at hctx
        simp at hctx
      · rw [if_neg h2] at hctx
        have hsel : selectLogPaths [] maxPaths
            (buildChangedLineMap snap []) = [] := by
          simp [selectLogPaths]
        rw [hsel] at hctx
        exact gatherBackfill_nil_path snap maxEntries (min maxEntries 10) _
          rfl ctx hctx

theorem c5_amended_witness :
    gatherLogContext snapEx ([] : List Str) 5 0 = [] ∧
    ∀ ctx ∈ gatherLogContext snapEx ([] : List Str) 5 5,
      ctx.path = str "repository" :=
  ⟨(c5_amended snapEx [] 5 0).1 (by decide),
   (c5_amended snapEx [] 5 5).2 rfl⟩

/-- Claim C6: no `(subject, body)` pair appears twice across the returned
`LogScope` list -- entries are deduplicated against one `seen` set shared
by the primary and the repository-wide fallback scope. -/
theorem gather_no_duplicate_keys (snap : GitSnapshot)
    (stagedFiles : List Str) (maxPaths maxEntries : Int) :
    List.Pairwise (fun a b => msgKey a ≠ msgKey b)
      (contextEntries (gatherLogContext snap stagedFiles maxPaths
        maxEntries)) := by
  unfold gatherLogContext
  by_cases h1 : maxPaths ≤ 0 ∨ maxEntries ≤ 0
  · rw [if_pos h1]
    simp [contextEntries]
  · rw [if_neg h1]
    by_cases h2 : min maxEntries 10 ≤ 0
    · rw [if_pos h2]
      simp [contextEntries]
    · rw [if_neg h2]
      apply gatherBackfill_pairwise
      · rw [gatherPrimary_contextEntries]
        exact gatherPrimary_pairwise snap _ _
      · intro e he
        rw [gatherPrimary_contextEntries] at he
        exact gatherPrimary_key_mem_seen snap _ _ e he

/-- Claim C7: under the collaborator contract that a bounded log query
returns at most its max-count of exemplars, the total number of
exemplars over all returned scopes is at most `min(maxLogEntries, 10)`
(in particular never more than 10). -/
theorem gather_total_entries_le (snap : GitSnapshot)
    (stagedFiles : List Str) (maxPaths maxEntries : Int)
    (H : ∀ (p : Option Str) (n : Int),
      (getLogEntries snap p n).length ≤ n.toNat) :
    (contextEntries (gatherLogContext snap stagedFiles maxPaths
      maxEntries)).length ≤ (min maxEntries 10).toNat := by
  unfold gatherLogContext
  by_cases h1 : maxPaths ≤ 0 ∨ maxEntries ≤ 0
  · rw [if_pos h1]
    simp [contextEntries]
  · rw [if_neg h1]
    by_cases h2 : min maxEntries 10 ≤ 0
    · rw [if_pos h2]
      simp [contextEntries]
    · rw [if_neg h2]
      exact gatherBackfill_length_le snap maxEntries (min maxEntries 10) _
        (gatherPrimary_contextEntries snap _ _)
        (gatherPrimary_length_le snap _ _ H) H

theorem gather_total_entries_le_witness :
    (∀ (p : Option Str) (n : Int),
      (getLogEntries snapQuiet p n).length ≤ n.toNat) ∧
    (contextEntries (gatherLogContext snapQuiet [str "a.txt"] 4 20)).length
      ≤ (min (20 : Int) 10).toNat := by
  have H : ∀ (p : Option Str) (n : Int),
      (getLogEntries snapQuiet p n).length ≤ n.toNat := by
    intro p n
    unfold getLogEntries
    split
    · simp
    · simp [snapQuiet]
  exact ⟨H, gather_total_entries_le snapQuiet [str "a.txt"] 4 20 H⟩

/-! ### Claims C1, C2, C8, C9, C10 -/

theorem encode_append (a b : Str) : encode (a ++ b) = encode a ++ encode b := by
  induction a with
  | nil => simp [encode]
  | cons c cs ih => simp [encode, ih]

theorem buildFilteredDiff_shape (snap : GitSnapshot) (cfg : Config)
    (out : Str × Bool × Bool) (hout : buildFilteredDiff snap cfg = some out) :
    ∃ text, out.1 = (truncateDiff text cfg.maxDiffBytes cfg.maxPatchLines).1
    := by
  unfold buildFilteredDiff at hout
  rcases hns : snap.numstatResp with _ | entries
  · rw [hns] at hout
    simp at hout
  · rw [hns] at hout
    dsimp only at hout
    by_cases he : entries.isEmpty
    · rw [if_pos he] at hout
      refine ⟨snap.diffPatchAll, ?_⟩
      have h := Option.some.inj hout
      rw [← h]
    · rw [if_neg he] at hout
      have h := Option.some.inj hout
      exact ⟨_, by rw [← h]⟩

/-- Claim C1: for every configuration and snapshot of collaborator
responses, the diff text produced by `_build_filtered_diff` (patches,
blank-line separators and exclusion report included, since the final
truncation pass runs over the fully assembled text) has at most
`maxPatchLines` lines when that cap is positive, and at most
`maxDiffBytes` UTF-8 bytes when that cap is positive. -/
theorem build_filtered_diff_caps (snap : GitSnapshot) (cfg : Config)
    (out : Str × Bool × Bool) (hout : buildFilteredDiff snap cfg = some out) :
    (0 < cfg.maxPatchLines →
      ((pySplitlines out.1).length : Int) ≤ cfg.maxPatchLines) ∧
    (0 < cfg.maxDiffBytes → (byteLen out.1 : Int) ≤ cfg.maxDiffBytes) := by
  obtain ⟨text, htext⟩ := buildFilteredDiff_shape snap cfg out hout
  rw [htext]
  exact truncateDiff_caps text cfg.maxDiffBytes cfg.maxPatchLines

theorem build_filtered_diff_caps_witness :
    buildFilteredDiff snapQuiet ⟨10, 2, 20, 4, 6⟩ =
      some (str "Excluded f", true, true) ∧
    ((pySplitlines (str "Excluded f")).length : Int) ≤ 2 ∧
    (byteLen (str "Excluded f") : Int) ≤ 10 := by
  have hout : buildFilteredDiff snapQuiet ⟨10, 2, 20, 4, 6⟩ =
      some (str "Excluded f", true, true) := by decide
  refine ⟨hout, ?_, ?_⟩
  · exact (build_filtered_diff_caps snapQuiet ⟨10, 2, 20, 4, 6⟩
      (str "Excluded f", true, true) hout).1 (by decide)
  · exact (build_filtered_diff_caps snapQuiet ⟨10, 2, 20, 4, 6⟩
      (str "Excluded f", true, true) hout).2 (by decide)

/-- Claim C2, counterexample: `_estimate_tokens` divides the CHARACTER
count by 4 (Python `len` of a `str`), not the UTF-8 byte length: on
`"éééé"` (4 characters, 8 UTF-8 bytes) it returns `ceil(4/4) = 1`, while
the claimed `ceil(utf8ByteLength/4)` is `2`. -/
theorem c2_counterexample :
    estimateTokens (str "éééé") = 1 ∧ (byteLen (str "éééé") + 3) / 4 = 2 ∧
    estimateTokens (str "éééé") ≠ (byteLen (str "éééé") + 3) / 4 := by
  refine ⟨by decide, by decide, by decide⟩

/-- Claim C2 (amended): the token estimate equals
`ceil(charCount / 4)` where `charCount` is the number of code points of
the text (so `4 * estimate` is the least multiple of 4 that is at least
`charCount`). -/
theorem estimate_tokens_ceil_chars (s : Str) :
    estimateTokens s = (s.length + 3) / 4 ∧
    s.length ≤ 4 * estimateTokens s ∧
    4 * estimateTokens s < s.length + 4 := by
  unfold estimateTokens
  by_cases h : s.isEmpty
  · rw [if_pos h]
    rw [List.isEmpty_iff] at h
    subst h
    simp
  · rw [if_neg h]
    refine ⟨rfl, by omega, by omega⟩

/-- Claim C8: for a positive byte cap, `_truncate_bytes` returns a string
of at most `maxBytes` UTF-8 bytes which is a character prefix of the
input (so it never ends mid multi-byte character), and its encoding is a
prefix of the input's encoding. -/
theorem truncate_bytes_wellformed (s : Str) (k : Nat) (hk : 0 < k) :
    byteLen (truncateBytes s k) ≤ k ∧
    ∃ n, truncateBytes s k = s.take n ∧
      encode (truncateBytes s k) ++ encode (s.drop n) = encode s := by
  obtain ⟨n, heq, hlen⟩ := truncateBytes_spec s k
  refine ⟨by rw [heq]; exact hlen, n, heq, ?_⟩
  rw [heq, ← encode_append, List.take_append_drop]

theorem truncate_bytes_wellformed_witness :
    0 < 2 ∧ (byteLen (truncateBytes (str "éa") 2) ≤ 2 ∧
      ∃ n, truncateBytes (str "éa") 2 = (str "éa").take n ∧
        encode (truncateBytes (str "éa") 2) ++ encode ((str "éa").drop n) =
          encode (str "éa")) :=
  ⟨by decide, truncate_bytes_wellformed (str "éa") 2 (by decide)⟩

/-- Claim C9: the context build is deterministic -- with the same
configuration and an identical fixed snapshot of version-control
responses, two runs of `collect_context` produce identical
`CommitContext` payloads (the embedding is a pure function of the
snapshot, mirroring the absence of any other input in the code). -/
theorem collect_context_deterministic (root : Str) (snap : GitSnapshot)
    (cfg : Config) (r1 r2 : Except CmtrError CommitContext)
    (h1 : collectContext root snap cfg = r1)
    (h2 : collectContext root snap cfg = r2) : r1 = r2 := by
  rw [← h1, ← h2]

theorem collect_context_deterministic_witness :
    collectContext (str "/repo") snapQuiet cfgEx =
      collectContext (str "/repo") snapQuiet cfgEx :=
  collect_context_deterministic (str "/repo") snapQuiet cfgEx _ _ rfl rfl

/-- Claim C10: when the numstat query reports no entries while staged
files exist, `_build_filtered_diff` bypasses the exclusion filter and the
budget allocator: the payload's diff is the raw staged patch subjected
only to the final truncation pass, `diffWasFiltered` is `false`, and no
exclusion report is appended (the diff text is exactly the truncated raw
patch). -/
theorem empty_numstat_bypass (root : Str) (snap : GitSnapshot) (cfg : Config)
    (hstaged : snap.stagedFiles ≠ []) (hnum : snap.numstatResp = some []) :
    ∃ ctx, collectContext root snap cfg = .ok ctx ∧
      ctx.diffPatch =
        (truncateDiff snap.diffPatchAll cfg.maxDiffBytes cfg.maxPatchLines).1 ∧
      ctx.diffWasFiltered = false ∧
      ctx.diffWasTruncated =
        (truncateDiff snap.diffPatchAll cfg.maxDiffBytes cfg.maxPatchLines).2
    := by
  have hbfd : buildFilteredDiff snap cfg = some
      ((truncateDiff snap.diffPatchAll cfg.maxDiffBytes cfg.maxPatchLines).1,
        false,
        (truncateDiff snap.diffPatchAll cfg.maxDiffBytes cfg.maxPatchLines).2)
      := by
    unfold buildFilteredDiff
    rw [hnum]
    dsimp only
    rw [if_pos (by simp)]
  unfold collectContext
  rw [if_neg (by simpa [List.isEmpty_iff] using hstaged)]
  rw [hbfd]
  dsimp only
  exact ⟨_, rfl, rfl, rfl, rfl⟩

theorem empty_numstat_bypass_witness :
    snapEx.stagedFiles ≠ [] ∧ snapEx.numstatResp = some [] ∧
    ∃ ctx, collectContext (str "/repo") snapEx cfgEx = .ok ctx ∧
      ctx.diffPatch = (truncateDiff snapEx.diffPatchAll cfgEx.maxDiffBytes
        cfgEx.maxPatchLines).1 ∧
      ctx.diffWasFiltered = false ∧
      ctx.diffWasTruncated = (truncateDiff snapEx.diffPatchAll
        cfgEx.maxDiffBytes cfgEx.maxPatchLines).2 :=
  ⟨by decide, by decide,
   empty_numstat_bypass (str "/repo") snapEx cfgEx (by decide) (by decide)⟩

/-! ### Claim C3: the best-changed-path selection rule -/

theorem mem_insertSorted (lt : α → α → Bool) (x : α) :
    ∀ (l : List α) (y : α), y ∈ insertSorted lt x l ↔ y = x ∨ y ∈ l
  | [], y => by simp [insertSorted]
  | z :: zs, y => by
    simp only [insertSorted]
    split
    · rw [List.mem_cons, mem_insertSorted lt x zs y, List.mem_cons]
      tauto
    · rw [List.mem_cons, List.mem_cons]

theorem mem_insSort (lt : α → α → Bool) :
    ∀ (l : List α) (y : α), y ∈ insSort lt l ↔ y ∈ l
  | [], y => by simp [insSort]
  | x :: xs, y => by
    simp only [insSort]
    rw [mem_insertSorted lt x (insSort lt xs) y, mem_insSort lt xs y]
    simp

theorem insSort_head_min (lt : α → α → Bool)
    (hirr : ∀ a, lt a a = false)
    (hasym : ∀ a b, lt a b = true → lt b a = false)
    (hctrans : ∀ a b c, lt a b = false → lt b c = false → lt a c = false) :
    ∀ (l : List α) (h : α) (t : List α), insSort lt l = h :: t →
      ∀ y ∈ l, lt y h = false
  | [], h, t, heq => by simp [insSort] at heq
  | a :: rest, h, t, heq => by
    intro y hy
    simp only [insSort] at heq
    rcases hrec : insSort lt rest with _ | ⟨h', t'⟩
    · rw [hrec] at heq
      simp only [insertSorted] at heq
      have hh := (List.cons.inj heq).1
      rcases List.mem_cons.mp hy with ha | hy'
      · rw [← hh, ha]
        exact hirr a
      · have hmem : y ∈ insSort lt rest := (mem_insSort lt rest y).mpr hy'
        rw [hrec] at hmem
        simp at hmem
    · rw [hrec] at heq
      simp only [insertSorted] at heq
      have IH := insSort_head_min lt hirr hasym hctrans rest h' t' hrec
      by_cases hha : lt h' a = true
      · rw [if_pos hha] at heq
        have hh := (List.cons.inj heq).1
        rcases List.mem_cons.mp hy with ha | hy'
        · rw [← hh, ha]
          exact hasym h' a hha
        · rw [← hh]
          exact IH y hy'
      · rw [if_neg hha] at heq
        have hh := (List.cons.inj heq).1
        rcases List.mem_cons.mp hy with ha | hy'
        · rw [← hh, ha]
          exact hirr a
        · rw [← hh]
          exact hctrans y h' a (IH y hy') (by simpa using hha)

theorem bcpLt_irrefl (a : Str × Nat) : bcpLt a a = false := by
  simp [bcpLt]

theorem bcpLt_asymm (a b : Str × Nat) (h : bcpLt a b = true) :
    bcpLt b a = false := by
  simp only [bcpLt, decide_eq_true_eq] at h
  simp only [bcpLt, decide_eq_false_iff_not]
  exact lt_asymm h

theorem bcpLt_ctrans (a b c : Str × Nat) (h1 : bcpLt a b = false)
    (h2 : bcpLt b c = false) : bcpLt a c = false := by
  simp only [bcpLt, decide_eq_false_iff_not] at h1 h2 ⊢
  exact not_lt.mpr (le_trans (not_lt.mp h2) (not_lt.mp h1))

theorem bcpKey_path_eq (kv kv' : Str × Nat) (h : bcpKey kv = bcpKey kv') :
    kv.1 = kv'.1 := by
  unfold bcpKey at h
  have h2 := toLex_inj.mp h
  have h3 := congrArg Prod.snd h2
  simp only at h3
  have h4 := toLex_inj.mp h3
  exact congrArg Prod.snd h4

/-- Claim C3, counterexample: staged files `"a/b/x"` and `"c"` share no
common prefix, and all changed-line totals are 0; the groups are `"a/b"`
(depth 2) and `"c"` (depth 1) with equal totals.  The claim's
shallowest-first tie-break would pick `"c"`, but `_best_changed_path`
sorts with the key `(-score, -len(parts), path)` and picks the deepest
group `"a/b"`. -/
theorem c3_counterexample :
    bestChangedPath [str "a/b/x", str "c"] [] = str "a/b" ∧
    bestChangedPathShallow [str "a/b/x", str "c"] [] = str "c" ∧
    str "a/b" ≠ str "c" := by
  refine ⟨by decide, by decide, by decide⟩

/-- Claim C3 (amended): when the staged files share no common
path-segment prefix, the fallback scope is chosen by grouping
changed-line totals by (file if top-level, else its parent directory) and
picking the group with the highest total changed lines, with ties broken
by DEEPEST path depth (most path segments) first, then lexicographically
smallest: the chosen group strictly beats every other group under that
ordering. -/
theorem best_changed_path_optimal (stagedFiles : List Str)
    (changed : List (Str × Nat))
    (hs : buildScores stagedFiles changed ≠ []) :
    ∃ sb, (bestChangedPath stagedFiles changed, sb) ∈
        buildScores stagedFiles changed ∧
      ∀ kv ∈ buildScores stagedFiles changed,
        kv.1 ≠ bestChangedPath stagedFiles changed →
          kv.2 < sb ∨ (kv.2 = sb ∧
            ((splitParts kv.1).length <
              (splitParts (bestChangedPath stagedFiles changed)).length ∨
             ((splitParts kv.1).length =
               (splitParts (bestChangedPath stagedFiles changed)).length ∧
              bestChangedPath stagedFiles changed < kv.1))) := by
  have hsf : ¬ stagedFiles.isEmpty = true := by
    intro h
    rw [List.isEmpty_iff] at h
    subst h
    exact hs rfl
  rcases hsort : insSort bcpLt (buildScores stagedFiles changed)
    with _ | ⟨hd, tl⟩
  · exfalso
    rcases hsc : buildScores stagedFiles changed with _ | ⟨p, ps⟩
    · exact hs hsc
    · have hmem : p ∈ insSort bcpLt (buildScores stagedFiles changed) :=
        (mem_insSort bcpLt _ p).mpr (by rw [hsc]; simp)
      rw [hsort] at hmem
      simp at hmem
  · have hb : bestChangedPath stagedFiles changed = hd.1 := by
      unfold bestChangedPath
      rw [if_neg hsf]
      dsimp only
      rw [if_neg (by intro h; rw [List.isEmpty_iff] at h; exact hs h)]
      rw [hsort]
    have hmem : hd ∈ buildScores stagedFiles changed := by
      have hm : hd ∈ insSort bcpLt (buildScores stagedFiles changed) := by
        rw [hsort]
        simp
      exact (mem_insSort bcpLt _ hd).mp hm
    have hmin := insSort_head_min bcpLt bcpLt_irrefl bcpLt_asymm bcpLt_ctrans
      (buildScores stagedFiles changed) hd tl hsort
    rw [hb]
    refine ⟨hd.2, hmem, ?_⟩
    intro kv hkv hne
    have h1 : bcpLt kv hd = false := hmin kv hkv
    have hkey_ne : bcpKey hd ≠ bcpKey kv := by
      intro h
      exact hne (bcpKey_path_eq hd kv h).symm
    have hlt : bcpKey hd < bcpKey kv := by
      rcases lt_trichotomy (bcpKey hd) (bcpKey kv) with h | h | h
      · exact h
      · exact absurd h hkey_ne
      · exfalso
        have hcontr : bcpLt kv hd = true := by
          simp [bcpLt, h]
        rw [h1] at hcontr
        cases hcontr
    unfold bcpKey at hlt
    rw [Prod.Lex.lt_iff] at hlt
    simp only at hlt
    rcases hlt with hlt | ⟨heq1, hlt⟩
    · left
      omega
    · rw [Prod.Lex.lt_iff] at hlt
      simp only at hlt
      rcases hlt with hlt | ⟨heq2, hlt⟩
      · right
        exact ⟨by omega, Or.inl (by omega)⟩
      · right
        exact ⟨by omega, Or.inr ⟨by omega, hlt⟩⟩

theorem best_changed_path_optimal_witness :
    buildScores [str "a/b/x", str "c"] [] ≠ [] ∧
    ∃ sb, (bestChangedPath [str "a/b/x", str "c"] [], sb) ∈
        buildScores [str "a/b/x", str "c"] [] ∧
      ∀ kv ∈ buildScores [str "a/b/x", str "c"] [],
        kv.1 ≠ bestChangedPath [str "a/b/x", str "c"] [] →
          kv.2 < sb ∨ (kv.2 = sb ∧
            ((splitParts kv.1).length <
              (splitParts (bestChangedPath [str "a/b/x", str "c"] [])).length ∨
             ((splitParts kv.1).length =
               (splitParts (bestChangedPath [str "a/b/x", str "c"] [])).length ∧
              bestChangedPath [str "a/b/x", str "c"] [] < kv.1))) :=
  ⟨by decide, best_changed_path_optimal [str "a/b/x", str "c"] [] (by decide)⟩

end Cmtr
